import Mathlib

/-!
Shallow embedding of the `go-cover-coveragepy` profile parsing and
aggregation engine (`main.go`, `util.go`).

Modeling conventions:
* Go `uint` (64-bit) values are `Nat` kept below `2 ^ 64`; additions and
  subtractions that can wrap are taken modulo `2 ^ 64` (`uadd`, `usub`).
* Go `int` is `Int`; `strconv.Atoi` rejects values outside the `int64` range.
* `float64` arithmetic in the percentage computations is modeled as exact
  rational arithmetic; `math.Ceil` on an exact nonnegative ratio becomes
  ceiling division on `Nat`.  The expression `0.0 / 0.0` is NaN and Go's
  conversion `uint(NaN)` is implementation-dependent, which is modeled as
  `Option.none`.
* Run-time panics (index out of range on a slice, writing a field through a
  nil `*Item` obtained from a map miss) are modeled as error results
  (`Except`/`Option`/dedicated constructors), since they abort the program.
-/

namespace GoCover

/-- The modulus of Go's 64-bit `uint`, `2 ^ 64`. -/
def U64 : Nat := 2 ^ 64

/-- Go `uint` addition (wraps modulo `2 ^ 64`). -/
def uadd (a b : Nat) : Nat := (a + b) % U64

/-- Go `uint` subtraction `a - b` (wraps modulo `2 ^ 64`; `a`, `b` are
assumed to be `uint` values, i.e. `< 2 ^ 64`). -/
def usub (a b : Nat) : Nat := (U64 + a - b) % U64

/-- Go conversion `uint(i)` of a (64-bit) signed integer: reduction modulo
`2 ^ 64`. -/
def uintOfInt (i : Int) : Nat := (i % (U64 : Int)).toNat

/-- Go's `strings.Split(s, sep)` on character lists, for a non-empty separator:
cut at every leftmost non-overlapping occurrence of `sep`.  The `fuel`
argument only makes the recursion structural; `goSplit` supplies enough. -/
def splitChars (sep : List Char) : Nat → List Char → List (List Char)
  | _, [] => [[]]
  | 0, s => [s]
  | fuel + 1, c :: rest =>
    if sep ≠ [] ∧ sep.isPrefixOf (c :: rest) then
      [] :: splitChars sep fuel ((c :: rest).drop sep.length)
    else
      match splitChars sep fuel rest with
      | [] => [[c]]
      | t :: ts => (c :: t) :: ts

/-- Go's `strings.Split`, on `String`. -/
def goSplit (s sep : String) : List String :=
  (splitChars sep.toList s.toList.length s.toList).map String.mk

/-- Go's `strings.ReplaceAll(s, old, new)` for single-character `old`/`new`
(the only uses in the source), which is a character-wise map. -/
def replaceAllChar (s : String) (old new : Char) : String :=
  String.mk (s.toList.map fun c => if c = old then new else c)

/-- The `flattenFilename` function of `main.go`: replace every `.` and then every `/`
by `_` (e.g. `github.com/user/repo/file.go -> github_com_user_repo_file_go`). -/
def flattenFilename (filename : String) : String :=
  let base := replaceAllChar filename '.' '_'
  replaceAllChar base '/' '_'

/-- Go's `strconv.Atoi` on a 64-bit platform: optional sign, one or more decimal
digits, error outside the `int64` range. -/
def atoi (s : String) : Option Int :=
  let p : Int × List Char :=
    match s.toList with
    | '-' :: rest => (-1, rest)
    | '+' :: rest => (1, rest)
    | cs => (1, cs)
  match p with
  | (sign, digits) =>
    if digits = [] then none
    else if digits.all (fun c => c.isDigit) then
      let n : Nat := digits.foldl (fun acc c => acc * 10 + (c.toNat - '0'.toNat)) 0
      let v : Int := sign * n
      if v < -(2 ^ 63) ∨ (2 ^ 63 : Int) - 1 < v then none else some v
    else none

/-- One parsed coverage record (`CoverageResult` of `main.go`).  Note that
the numeric field `words[1]` (the statement count of the Go cover format)
is never read by the source, so it is not part of the structure. -/
structure CoverageResult where
  Module : String
  StartLine : Nat
  StartColumn : Nat
  EndLine : Nat
  EndColumn : Nat
  Reached : Bool
deriving Repr, DecidableEq

/-- How one record line fails: a slice index out of range is a run-time
panic (non-zero exit status), a `strconv.Atoi` failure prints a diagnostic
and returns from `main` (exit status 0). -/
inductive ParseErr where
  | indexPanic
  | atoiErr
deriving Repr, DecidableEq

/-- Index a list like a Go slice: out of range is a panic. -/
def sliceIdx {α : Type} (l : List α) (i : Nat) : Except ParseErr α :=
  match l.get? i with
  | some a => Except.ok a
  | none => Except.error ParseErr.indexPanic

/-- Result of `strconv.Atoi` with the source's error handling (diagnostic plus return). -/
def atoiE (s : String) : Except ParseErr Int :=
  match atoi s with
  | some i => Except.ok i
  | none => Except.error ParseErr.atoiErr

/-- The body of the record-parsing loop of `main` (lines 793–833 of
`main.go`), for one non-header line, with the source's evaluation order:
`words[0]`, `infos[0]`, `infos[1]`, `words[2]`, `startEnds[1]` (evaluated
inside the `logger.Debug` call), then `Atoi` on `s[0]`, `s[1]`, `e[0]`,
`e[1]`, each index evaluated before its `Atoi`. -/
def parseLine (line : String) : Except ParseErr CoverageResult := do
  let words := goSplit line " "
  let infos := goSplit (words.headD "") ":"
  let module := infos.headD ""
  let startEnd ← sliceIdx infos 1
  let startEnds := goSplit startEnd ","
  let reached ← sliceIdx words 2
  let startEndSnd ← sliceIdx startEnds 1
  let s := goSplit (startEnds.headD "") "."
  let e := goSplit startEndSnd "."
  let startLine ← atoiE (s.headD "")
  let sCol ← sliceIdx s 1
  let startColumn ← atoiE sCol
  let endLine ← atoiE (e.headD "")
  let eCol ← sliceIdx e 1
  let endColumn ← atoiE eCol
  pure { Module := module
         StartLine := uintOfInt startLine
         StartColumn := uintOfInt startColumn
         EndLine := uintOfInt endLine
         EndColumn := uintOfInt endColumn
         Reached := reached == "1" }

/-- Outcome of the whole record-parsing loop: abort on the first failing
line (panic or diagnostic-and-return), otherwise the record list in input
order. -/
inductive RecordsResult where
  | panic
  | diag
  | ok (covs : List CoverageResult)
deriving Repr, DecidableEq

/-- The record-parsing loop of `main`: parse each line after the header,
aborting at the first failure. -/
def parseRecords : List String → RecordsResult
  | [] => RecordsResult.ok []
  | l :: rest =>
    match parseLine l with
    | Except.error ParseErr.indexPanic => RecordsResult.panic
    | Except.error ParseErr.atoiErr => RecordsResult.diag
    | Except.ok c =>
      match parseRecords rest with
      | RecordsResult.ok cs => RecordsResult.ok (c :: cs)
      | r => r

/-- A reached or missed line range (`CoverRange` of `main.go`). -/
structure CoverRange where
  Start : Nat
  End : Nat
deriving Repr, DecidableEq

/-- Per-module summary (`Item` of `main.go`).  Defaults are the Go zero
value of `Item` (`&Item{}`); a zero `uint` percentage is `some 0`. -/
structure Item where
  Percentage : Option Nat := some 0
  Reached : Nat := 0
  Missed : Nat := 0
  Excluded : Nat := 0
  Statement : Nat := 0
  ReachedRanges : List CoverRange := []
  MissedRanges : List CoverRange := []
  All : Nat := 0
  DisplayFile : String := ""
  HtmlLink : String := ""
deriving Repr, DecidableEq

/-- The method `Item.IsReached` of `main.go`: scan of the reached range list. -/
def Item.IsReached (item : Item) (num : Nat) : Bool :=
  item.ReachedRanges.any fun rangeItem => rangeItem.Start ≤ num && num ≤ rangeItem.End

/-- The method `Item.IsMissed` of `main.go`: scan of the missed range list. -/
def Item.IsMissed (item : Item) (num : Nat) : Bool :=
  item.MissedRanges.any fun rangeItem => rangeItem.Start ≤ num && num ≤ rangeItem.End

/-- The value `uint(math.Ceil(float64 r / float64 t * 100))`, with `float64`
arithmetic modeled as exact: ceiling division when `t ≠ 0`; for `t = 0`
the source divides `0.0` by `0.0`, giving NaN, whose `uint` conversion is
implementation-dependent — modeled as `none`. -/
def ceilPercent (r t : Nat) : Option Nat :=
  if t = 0 then none else some ((r * 100 + t - 1) / t)

/-- The Go map `items map[string]*Item` as an association list. -/
def ItemMap : Type := List (String × Item)

/-- Map read `items[k]` (as a lookup; a miss on a `map[string]*Item`
yields a nil pointer). -/
def getItem : ItemMap → String → Option Item
  | [], _ => none
  | (k', v) :: rest, k => if k' = k then some v else getItem rest k

/-- Map write `items[k] = v` (insert or overwrite). -/
def setItem : ItemMap → String → Item → ItemMap
  | [], k, v => [(k, v)]
  | (k', v') :: rest, k, v =>
    if k' = k then (k, v) :: rest else (k', v') :: setItem rest k v

/-- Field assignment `items[k].f = ...` through the stored pointer: a map
miss is a nil-pointer dereference, i.e. a panic, modeled as `none`. -/
def mutItem (m : ItemMap) (k : String) (f : Item → Item) : Option ItemMap :=
  match getItem m k with
  | none => none
  | some v => some (setItem m k (f v))

/-- The local state of the summarize loop of `main` (lines 837–845). -/
structure AggState where
  items : ItemMap
  lastModule : String
  lastCov : CoverageResult
  reachedNum : Nat
  missedNum : Nat
  totalReachedNum : Nat
  totalMissedNum : Nat
  totalStatementNum : Nat
  reachedRanges : List CoverRange
  missedRanges : List CoverRange
  allNum : Nat
  totalAllNum : Nat

/-- Initial state: Go zero values of the loop locals. -/
def initAggState : AggState :=
  { items := []
    lastModule := ""
    lastCov := { Module := "", StartLine := 0, StartColumn := 0
                 EndLine := 0, EndColumn := 0, Reached := false }
    reachedNum := 0, missedNum := 0
    totalReachedNum := 0, totalMissedNum := 0, totalStatementNum := 0
    reachedRanges := [], missedRanges := []
    allNum := 0, totalAllNum := 0 }

/-- The assignment `allNum = lastCov.EndLine`, plus 1 when `lastCov` was not reached. -/
def lastAllNum (lastCov : CoverageResult) : Nat :=
  if lastCov.Reached then lastCov.EndLine else uadd lastCov.EndLine 1

/-- Fold one record's span into the running accumulators: the loop adds
`cov.EndLine - cov.StartLine` (uint subtraction) to `reachedNum` or
`missedNum` per the `Reached` flag and appends `{cov.StartLine,
cov.EndLine}` to the matching range list.  Returns the updated
`(reachedNum, reachedRanges, missedNum, missedRanges)`. -/
def foldSpan (cov : CoverageResult) (rN : Nat) (rR : List CoverRange)
    (mN : Nat) (mR : List CoverRange) :
    Nat × List CoverRange × Nat × List CoverRange :=
  let span := usub cov.EndLine cov.StartLine
  if cov.Reached then
    (uadd rN span, rR ++ [{ Start := cov.StartLine, End := cov.EndLine }], mN, mR)
  else
    (rN, rR, uadd mN span, mR ++ [{ Start := cov.StartLine, End := cov.EndLine }])

/-- One iteration of the summarize loop of `main` (lines 846–921),
the three branches on `lastModule`. -/
def stepCov (st : AggState) (cov : CoverageResult) : Option AggState :=
  if st.lastModule = "" then
    -- first branch (lines 847–869)
    match foldSpan cov st.reachedNum st.reachedRanges st.missedNum st.missedRanges with
    | (rN, rR, mN, mR) =>
      let items1 := setItem st.items cov.Module {}
      match mutItem items1 cov.Module (fun it =>
        { it with Reached := rN, Missed := mN, Statement := uadd rN mN
                  All := st.allNum
                  Percentage := ceilPercent rN (uadd rN mN)
                  DisplayFile := cov.Module
                  HtmlLink := flattenFilename cov.Module ++ ".html" }) with
      | none => none
      | some items2 =>
        some { st with
          items := items2
          reachedNum := rN, missedNum := mN
          reachedRanges := rR, missedRanges := mR
          totalReachedNum := uadd st.totalReachedNum rN
          totalMissedNum := uadd st.totalMissedNum mN
          totalAllNum := uadd st.totalAllNum st.allNum
          lastModule := cov.Module, lastCov := cov }
  else if st.lastModule ≠ cov.Module then
    -- module boundary (lines 870–909): finalize the old module, then
    -- start the new one
    let allNum1 := lastAllNum st.lastCov
    match mutItem st.items st.lastModule (fun it =>
      { it with Reached := st.reachedNum, Missed := st.missedNum
                Statement := uadd st.reachedNum st.missedNum
                All := allNum1
                Percentage := ceilPercent st.reachedNum (uadd st.reachedNum st.missedNum)
                DisplayFile := st.lastModule
                HtmlLink := flattenFilename st.lastModule ++ ".html"
                ReachedRanges := st.reachedRanges
                MissedRanges := st.missedRanges }) with
    | none => none
    | some items1 =>
      let items2 := setItem items1 cov.Module {}
      match foldSpan cov 0 [] 0 [] with
      | (rN, rR, mN, mR) =>
        some { st with
          items := items2
          allNum := allNum1
          totalReachedNum := uadd st.totalReachedNum st.reachedNum
          totalMissedNum := uadd st.totalMissedNum st.missedNum
          totalStatementNum := uadd st.totalStatementNum (uadd st.reachedNum st.missedNum)
          totalAllNum := uadd st.totalAllNum allNum1
          reachedNum := rN, missedNum := mN
          reachedRanges := rR, missedRanges := mR
          lastModule := cov.Module, lastCov := cov }
  else
    -- same module (lines 910–918)
    match foldSpan cov st.reachedNum st.reachedRanges st.missedNum st.missedRanges with
    | (rN, rR, mN, mR) =>
      some { st with
        reachedNum := rN, missedNum := mN
        reachedRanges := rR, missedRanges := mR
        lastModule := cov.Module, lastCov := cov }

/-- The code after the loop, `// care of last item` (lines 923–952):
finalize `items[lastModule]` (a nil-pointer panic when the record list was
empty, since `items[""]` is absent), then re-add `lastCov`'s span to the
accumulators and range lists (the last record is thereby double-counted),
attach the range lists, and add the accumulators into the global totals. -/
def finishAgg (st : AggState) : Option AggState :=
  let allNum1 := lastAllNum st.lastCov
  match mutItem st.items st.lastModule (fun it =>
    { it with Reached := st.reachedNum, Missed := st.missedNum
              Statement := uadd st.reachedNum st.missedNum
              All := allNum1
              Percentage := ceilPercent st.reachedNum (uadd st.reachedNum st.missedNum)
              DisplayFile := st.lastModule
              HtmlLink := flattenFilename st.lastModule ++ ".html" }) with
  | none => none
  | some items1 =>
    match foldSpan st.lastCov st.reachedNum st.reachedRanges st.missedNum st.missedRanges with
    | (rN, rR, mN, mR) =>
      match mutItem items1 st.lastModule (fun it =>
        { it with ReachedRanges := rR, MissedRanges := mR }) with
      | none => none
      | some items2 =>
        some { st with
          items := items2
          allNum := allNum1
          reachedNum := rN, missedNum := mN
          reachedRanges := rR, missedRanges := mR
          totalReachedNum := uadd st.totalReachedNum rN
          totalMissedNum := uadd st.totalMissedNum mN
          totalStatementNum := uadd st.totalStatementNum (uadd rN mN)
          totalAllNum := uadd st.totalAllNum allNum1 }

/-- The summarize loop followed by the post-loop finalization. -/
def runAgg : AggState → List CoverageResult → Option AggState
  | st, [] => finishAgg st
  | st, c :: cs =>
    match stepCov st c with
    | none => none
    | some st' => runAgg st' cs

/-- The whole summarize section of `main` on the parsed record list. -/
def summarize (covs : List CoverageResult) : Option AggState :=
  runAgg initAggState covs

/-- Global totals (`TotalItem` of `main.go`). -/
structure TotalItem where
  Percentage : Option Nat
  Reached : Nat
  Missed : Nat
  Excluded : Nat
  All : Nat
deriving Repr, DecidableEq

/-- The `Total` of the `Summary` built by `main` (lines 967–975). -/
def mkSummaryTotal (st : AggState) : TotalItem :=
  { All := st.totalAllNum
    Reached := st.totalReachedNum
    Missed := st.totalMissedNum
    Excluded := usub (usub st.totalAllNum st.totalReachedNum) st.totalMissedNum
    Percentage := ceilPercent st.totalReachedNum st.totalStatementNum }

/-- Outcome of `main` on the profile's lines (file and go.mod I/O and the
rendering stage are outside the model): header parsing, the record loop,
the summarize section. -/
inductive RunResult where
  | headerPanic
  | parseDiagExit
  | parsePanic
  | aggPanic
  | done (mode : String) (st : AggState)

/-- The behavior of `main` on the text lines of the profile: `modeStr[1]` of
`strings.Split(firstLine, "mode: ")` (an index panic when absent), the
record-parsing loop, then summarize. -/
def runMain (lines : List String) : RunResult :=
  let firstLine := lines.headD ""
  match (goSplit firstLine "mode: ").get? 1 with
  | none => RunResult.headerPanic
  | some mode =>
    match parseRecords lines.tail with
    | RecordsResult.panic => RunResult.parsePanic
    | RecordsResult.diag => RunResult.parseDiagExit
    | RecordsResult.ok covs =>
      match summarize covs with
      | none => RunResult.aggPanic
      | some st => RunResult.done mode st

/-- Process exit status of the modeled outcomes: run-time panics exit with
status 2, the `Atoi` diagnostic path returns normally from `main` (status
0); for `done` the status depends on the out-of-scope rendering I/O. -/
def exitStatus : RunResult → Option Nat
  | RunResult.headerPanic => some 2
  | RunResult.parsePanic => some 2
  | RunResult.aggPanic => some 2
  | RunResult.parseDiagExit => some 0
  | RunResult.done _ _ => none

/-- The finalized item of module `m`, when the run completed. -/
def moduleItem (r : RunResult) (m : String) : Option Item :=
  match r with
  | RunResult.done _ st => getItem st.items m
  | _ => none

/-- The final aggregation state, when the run completed. -/
def finalState (r : RunResult) : Option AggState :=
  match r with
  | RunResult.done _ st => some st
  | _ => none

/-- Go's `math.Round`: nearest integer, ties away from zero (`float64` modeled
as exact rationals). -/
def mathRound (x : ℚ) : Int :=
  if x < 0 then -⌊-x + 1 / 2⌋ else ⌊x + 1 / 2⌋

/-- Go's `fmt.Sprintf` with format `%.0f` for an integer-valued nonnegative float. -/
def sprintfF0 (i : Int) : String := toString i

/-- Round `num / den` (`den ≠ 0`) to the nearest integer, ties to even
(the rounding `fmt` uses for `%.Nf`). -/
def roundHalfEven (num den : Nat) : Nat :=
  let q := num / den
  let r := num % den
  if 2 * r < den then q
  else if den < 2 * r then q + 1
  else if q % 2 = 0 then q else q + 1

/-- Left-pad a digit string with zeros to `p` characters. -/
def padZeros (s : String) (p : Nat) : String :=
  String.mk (List.replicate (p - s.length) '0') ++ s

/-- Go's `fmt.Sprintf` with a `%.<p>f` format for a nonnegative value, `p > 0`: fixed
decimal notation with `p` fractional digits, rounding half to even. -/
def fmtFixed (x : ℚ) (p : Nat) : String :=
  let scaled := roundHalfEven (x.num.toNat * 10 ^ p) x.den
  toString (scaled / 10 ^ p) ++ "." ++ padZeros (toString (scaled % 10 ^ p)) p

/-- The function `getPercentageValue` of `util.go`: guard the zero denominator (the
ratio is taken as `0.0` instead of dividing), then format with
`math.Round` and `%.0f` at `precision ≤ 0`, or `%.<precision>f` above. -/
def getPercentageValue (numerator denominator : Nat) (precision : Int) : String :=
  let value : ℚ :=
    if denominator = 0 then 0
    else (numerator : ℚ) / (denominator : ℚ) * 100
  if precision ≤ 0 then sprintfF0 (mathRound value)
  else fmtFixed value precision.toNat

/-!  Specification-side definitions, stated from the spec's words, used to
compare the source's behavior against the claims. -/

/-- Modelled from the spec: `round(num / den)` — nearest integer, ties
away from zero — as a natural-number formula (for nonnegative inputs,
`round (a / b) = (2 a + b) / (2 b)` by floor division). -/
def roundTiesAway (num den : Nat) : Nat := (2 * num + den) / (2 * den)

/-- Modelled from the spec: the sum of `reached(M)` over the finalized
modules of the map. -/
def itemsReachedSum (m : ItemMap) : Nat :=
  m.foldl (fun acc p => acc + p.2.Reached) 0

/-- Modelled from the spec: the sum of `missed(M)` over the finalized
modules of the map. -/
def itemsMissedSum (m : ItemMap) : Nat :=
  m.foldl (fun acc p => acc + p.2.Missed) 0

/-- Modelled from the spec: the sum of `statementTotal(M)` over the
finalized modules of the map. -/
def itemsStatementSum (m : ItemMap) : Nat :=
  m.foldl (fun acc p => acc + p.2.Statement) 0

/-- The per-module output filename as built at every call site of
`flattenFilename`: `flattenFilename(module) + ".html"`. -/
def outputLink (module : String) : String :=
  flattenFilename module ++ ".html"

/-!  Concrete profiles used to settle the claims. -/

/-- Example 1 of the spec: header plus two records for module `a`. -/
def exampleProfile : List String := ["mode: set", "a:1.1,3.2 2 1", "a:4.1,4.5 1 0"]

/-- A profile whose single module has reached = 1, missed = 2 statement
lines, so that the true ratio `100 / 3` separates ceiling (34) from
round-to-nearest (33). -/
def thirdProfile : List String := ["mode: set", "a:1.1,2.2 1 1", "a:3.1,5.2 2 0"]

/-- A profile whose reached block (lines 1–5) overlaps its missed block
(lines 2–3) on module `a`. -/
def overlapProfile : List String := ["mode: set", "a:1.1,5.2 2 1", "a:2.1,3.2 1 0"]

/-- The view of a finalized item used by the counterexamples: reached,
missed, statement total and percentage. -/
def itemCounts (i : Item) : Nat × Nat × Nat × Option Nat :=
  (i.Reached, i.Missed, i.Statement, i.Percentage)

/-- Consistency of a stored item: the statement total is the (wrapped)
sum of reached and missed, and a non-zero statement total forces the
stored percentage to be the ceiling of `reached / statementTotal * 100`. -/
def ItemOK (i : Item) : Prop :=
  i.Statement = uadd i.Reached i.Missed ∧
  (i.Statement ≠ 0 →
    i.Percentage = some ((i.Reached * 100 + i.Statement - 1) / i.Statement))

/-- Every item of the map is consistent. -/
def MapOK (m : ItemMap) : Prop := ∀ M i, getItem m M = some i → ItemOK i

/-- The range `r` is the line span of some record of module `M` with
reached flag `flag` among `covs`. -/
def RangeFromRecord (covs : List CoverageResult) (M : String) (flag : Bool)
    (r : CoverRange) : Prop :=
  ∃ c, c ∈ covs ∧ c.Module = M ∧ c.Reached = flag ∧
    r = { Start := c.StartLine, End := c.EndLine }

/-- Every range of `rs` is the span of a matching record among `covs`. -/
def RangesFromRecords (covs : List CoverageResult) (M : String) (flag : Bool)
    (rs : List CoverRange) : Prop :=
  ∀ r ∈ rs, RangeFromRecord covs M flag r

/-- Loop invariant tying the range lists (stored and accumulating) to the
records processed so far. -/
def RangesInv (seen : List CoverageResult) (st : AggState) : Prop :=
  (∀ M i, getItem st.items M = some i →
      RangesFromRecords seen M true i.ReachedRanges ∧
      RangesFromRecords seen M false i.MissedRanges) ∧
  RangesFromRecords seen st.lastModule true st.reachedRanges ∧
  RangesFromRecords seen st.lastModule false st.missedRanges ∧
  (st.lastModule ≠ "" → st.lastCov ∈ seen ∧ st.lastCov.Module = st.lastModule) ∧
  (st.lastModule = "" → st.items = [])

/-- The reached-record spans and missed-record spans of module `M` in
`covs` are pairwise line-disjoint. -/
def SpanDisjoint (covs : List CoverageResult) (M : String) : Prop :=
  ∀ c ∈ covs, ∀ c' ∈ covs, c.Module = M → c'.Module = M →
    c.Reached = true → c'.Reached = false →
    (c.EndLine < c'.StartLine ∨ c'.EndLine < c.StartLine)

/-- The loop outcome caused by a failing record line of the given kind. -/
def failResult : ParseErr → RecordsResult
  | ParseErr.indexPanic => RecordsResult.panic
  | ParseErr.atoiErr => RecordsResult.diag

/-- The `main` outcome caused by a failing record line of the given kind. -/
def failRun : ParseErr → RunResult
  | ParseErr.indexPanic => RunResult.parsePanic
  | ParseErr.atoiErr => RunResult.parseDiagExit

/-- The process exit status caused by a failing record line: 2 for the
run-time panic, 0 for the diagnostic-and-return path. -/
def failExit : ParseErr → Nat
  | ParseErr.indexPanic => 2
  | ParseErr.atoiErr => 0

/-- Parsed records of `thirdProfile`: reached lines 1–2 (span 1), missed
lines 3–5 (span 2). -/
def covsThird : List CoverageResult :=
  [{ Module := "a", StartLine := 1, StartColumn := 1,
     EndLine := 2, EndColumn := 2, Reached := true },
   { Module := "a", StartLine := 3, StartColumn := 1,
     EndLine := 5, EndColumn := 2, Reached := false }]

/-- A record list whose reached span (lines 1–2) and missed span
(lines 3–4) are disjoint. -/
def covsDisjoint : List CoverageResult :=
  [{ Module := "a", StartLine := 1, StartColumn := 1,
     EndLine := 2, EndColumn := 2, Reached := true },
   { Module := "a", StartLine := 3, StartColumn := 1,
     EndLine := 4, EndColumn := 2, Reached := false }]

end GoCover

namespace GoCover

/-- Reading back a written key. -/
theorem getItem_setItem (m : ItemMap) (k : String) (v : Item) (q : String) :
    getItem (setItem m k v) q = if q = k then some v else getItem m q := by
  induction m with
  | nil =>
    simp only [setItem, getItem]
    by_cases h : k = q
    · rw [if_pos h, if_pos h.symm]
    · rw [if_neg h, if_neg (fun hh : q = k => h hh.symm)]
  | cons a rest ih =>
    obtain ⟨ka, va⟩ := a
    by_cases hak : ka = k
    · subst hak
      simp only [setItem, if_pos rfl, getItem]
      by_cases hq : ka = q
      · rw [if_pos hq, if_pos hq.symm]
      · rw [if_neg hq, if_neg (fun hh : q = ka => hq hh.symm), if_neg hq]
    · simp only [setItem, if_neg hak, getItem]
      by_cases hkq : ka = q
      · rw [if_pos hkq, if_neg (fun hh : q = k => hak (hkq.trans hh)), if_pos hkq]
      · rw [if_neg hkq, if_neg hkq, ih]

/-- Writing the same key twice keeps only the second value. -/
theorem setItem_setItem (m : ItemMap) (k : String) (v w : Item) :
    setItem (setItem m k v) k w = setItem m k w := by
  induction m with
  | nil => simp [setItem]
  | cons a rest ih =>
    obtain ⟨ka, va⟩ := a
    by_cases hak : ka = k
    · subst hak; simp [setItem]
    · simp [setItem, hak, ih]

/-- Evaluating `mutItem` on a present key. -/
theorem mutItem_of_get (m : ItemMap) (k : String) (f : Item → Item) (v : Item)
    (hv : getItem m k = some v) :
    mutItem m k f = some (setItem m k (f v)) := by
  simp [mutItem, hv]

/-- Evaluating `mutItem` on an absent key is the nil-pointer panic. -/
theorem mutItem_of_get_none (m : ItemMap) (k : String) (f : Item → Item)
    (hv : getItem m k = none) :
    mutItem m k f = none := by
  simp [mutItem, hv]

/-- First-record branch of the summarize loop (lines 847–869): fold the
span, create and fill the module's item, add into the running totals
(which double-counts this record later). -/
theorem stepCov_first (st : AggState) (cov : CoverageResult)
    (h : st.lastModule = "") (rN mN : Nat) (rR mR : List CoverRange)
    (hfs : foldSpan cov st.reachedNum st.reachedRanges st.missedNum st.missedRanges
      = (rN, rR, mN, mR)) :
    stepCov st cov = some { st with
      items := setItem st.items cov.Module
        { Percentage := ceilPercent rN (uadd rN mN)
          Reached := rN, Missed := mN, Excluded := 0
          Statement := uadd rN mN
          ReachedRanges := [], MissedRanges := []
          All := st.allNum
          DisplayFile := cov.Module
          HtmlLink := flattenFilename cov.Module ++ ".html" }
      reachedNum := rN, missedNum := mN
      reachedRanges := rR, missedRanges := mR
      totalReachedNum := uadd st.totalReachedNum rN
      totalMissedNum := uadd st.totalMissedNum mN
      totalAllNum := uadd st.totalAllNum st.allNum
      lastModule := cov.Module, lastCov := cov } := by
  unfold stepCov
  rw [if_pos h, hfs]
  dsimp only
  rw [mutItem_of_get _ _ _ _ (by rw [getItem_setItem]; exact if_pos rfl)]
  dsimp only
  rw [setItem_setItem]

/-- Same-module branch of the summarize loop (lines 910–918): only the
accumulators grow. -/
theorem stepCov_same (st : AggState) (cov : CoverageResult)
    (h1 : ¬ st.lastModule = "") (h2 : st.lastModule = cov.Module)
    (rN mN : Nat) (rR mR : List CoverRange)
    (hfs : foldSpan cov st.reachedNum st.reachedRanges st.missedNum st.missedRanges
      = (rN, rR, mN, mR)) :
    stepCov st cov = some { st with
      reachedNum := rN, missedNum := mN
      reachedRanges := rR, missedRanges := mR
      lastModule := cov.Module, lastCov := cov } := by
  unfold stepCov
  rw [if_neg h1, if_neg (not_not_intro h2), hfs]

/-- Module-boundary branch of the summarize loop (lines 870–909):
finalize the old module, add it into the totals, reset the accumulators
and start the new module from this record. -/
theorem stepCov_boundary (st : AggState) (cov : CoverageResult)
    (h1 : ¬ st.lastModule = "") (h2 : st.lastModule ≠ cov.Module)
    (v : Item) (hv : getItem st.items st.lastModule = some v)
    (rN mN : Nat) (rR mR : List CoverRange)
    (hfs : foldSpan cov 0 [] 0 [] = (rN, rR, mN, mR)) :
    stepCov st cov = some { st with
      items := setItem
        (setItem st.items st.lastModule
          { v with Reached := st.reachedNum, Missed := st.missedNum
                   Statement := uadd st.reachedNum st.missedNum
                   All := lastAllNum st.lastCov
                   Percentage := ceilPercent st.reachedNum (uadd st.reachedNum st.missedNum)
                   DisplayFile := st.lastModule
                   HtmlLink := flattenFilename st.lastModule ++ ".html"
                   ReachedRanges := st.reachedRanges
                   MissedRanges := st.missedRanges })
        cov.Module ({} : Item)
      allNum := lastAllNum st.lastCov
      totalReachedNum := uadd st.totalReachedNum st.reachedNum
      totalMissedNum := uadd st.totalMissedNum st.missedNum
      totalStatementNum := uadd st.totalStatementNum (uadd st.reachedNum st.missedNum)
      totalAllNum := uadd st.totalAllNum (lastAllNum st.lastCov)
      reachedNum := rN, missedNum := mN
      reachedRanges := rR, missedRanges := mR
      lastModule := cov.Module, lastCov := cov } := by
  unfold stepCov
  rw [if_neg h1, if_pos h2]
  dsimp only
  rw [mutItem_of_get _ _ _ _ hv]
  dsimp only
  rw [hfs]

/-- Module-boundary branch when the old module's item is absent: the
nil-pointer panic propagates. -/
theorem stepCov_boundary_none (st : AggState) (cov : CoverageResult)
    (h1 : ¬ st.lastModule = "") (h2 : st.lastModule ≠ cov.Module)
    (hv : getItem st.items st.lastModule = none) :
    stepCov st cov = none := by
  unfold stepCov
  rw [if_neg h1, if_pos h2]
  dsimp only
  rw [mutItem_of_get_none _ _ _ hv]

/-- Post-loop finalization (lines 923–952) when the last module's item is
present: fill its fields from the accumulators, re-add the last record's
span, attach the (duplicated) range lists, and add into the totals. -/
theorem finishAgg_some (st : AggState)
    (v : Item) (hv : getItem st.items st.lastModule = some v)
    (rN mN : Nat) (rR mR : List CoverRange)
    (hfs : foldSpan st.lastCov st.reachedNum st.reachedRanges st.missedNum st.missedRanges
      = (rN, rR, mN, mR)) :
    finishAgg st = some { st with
      items := setItem st.items st.lastModule
        { v with Reached := st.reachedNum, Missed := st.missedNum
                 Statement := uadd st.reachedNum st.missedNum
                 All := lastAllNum st.lastCov
                 Percentage := ceilPercent st.reachedNum (uadd st.reachedNum st.missedNum)
                 DisplayFile := st.lastModule
                 HtmlLink := flattenFilename st.lastModule ++ ".html"
                 ReachedRanges := rR, MissedRanges := mR }
      allNum := lastAllNum st.lastCov
      reachedNum := rN, missedNum := mN
      reachedRanges := rR, missedRanges := mR
      totalReachedNum := uadd st.totalReachedNum rN
      totalMissedNum := uadd st.totalMissedNum mN
      totalStatementNum := uadd st.totalStatementNum (uadd rN mN)
      totalAllNum := uadd st.totalAllNum (lastAllNum st.lastCov) } := by
  unfold finishAgg
  dsimp only
  rw [mutItem_of_get _ _ _ _ hv]
  dsimp only
  rw [hfs]
  dsimp only
  rw [mutItem_of_get _ _ _ _ (by rw [getItem_setItem]; exact if_pos rfl)]
  dsimp only
  rw [setItem_setItem]

/-- Post-loop finalization when the last module's item is absent (in
particular on an empty record list): the nil-pointer panic. -/
theorem finishAgg_none (st : AggState)
    (hv : getItem st.items st.lastModule = none) :
    finishAgg st = none := by
  unfold finishAgg
  dsimp only
  rw [mutItem_of_get_none _ _ _ hv]

/-- C1 counterexample.  On the spec's Example 1 profile
(`mode: set` / `a:1.1,3.2 2 1` / `a:4.1,4.5 1 0`) the program finalizes
module `a` with reached = 2, missed = 0, statementTotal = 2 and
percentage 100 — not the claimed reached = 2, missed = 1,
statementTotal = 3, percentage 67: the aggregator adds
`EndLine - StartLine` (here `4 - 4 = 0` for the missed record), never the
statement-count field of the record. -/
theorem C1_counterexample :
    (moduleItem (runMain exampleProfile) "a").map itemCounts =
      some (2, 0, 2, some 100) ∧
    (moduleItem (runMain exampleProfile) "a").map itemCounts ≠
      some (2, 1, 3, some 67) := by
  exact ⟨rfl, by decide⟩

/-- C1 (amended).  Inside a module group the loop adds the record's
unsigned line span `EndLine - StartLine` — never a statement-count field,
which the parser does not even read — to the reached or missed
accumulator according to the reached flag, and appends the span to the
matching range list; consequently on the spec's Example 1 profile module
`a` finalizes with reached = 2, missed = 0, statementTotal = 2,
percentage 100. -/
theorem C1_aggregator_adds_line_span :
    (∀ (st : AggState) (cov : CoverageResult),
      st.lastModule = cov.Module → ¬ st.lastModule = "" →
      stepCov st cov = some { st with
        reachedNum := if cov.Reached then
            uadd st.reachedNum (usub cov.EndLine cov.StartLine) else st.reachedNum
        missedNum := if cov.Reached then st.missedNum else
            uadd st.missedNum (usub cov.EndLine cov.StartLine)
        reachedRanges := if cov.Reached then
            st.reachedRanges ++ [{ Start := cov.StartLine, End := cov.EndLine }]
          else st.reachedRanges
        missedRanges := if cov.Reached then st.missedRanges else
            st.missedRanges ++ [{ Start := cov.StartLine, End := cov.EndLine }]
        lastModule := cov.Module, lastCov := cov }) ∧
    (moduleItem (runMain exampleProfile) "a").map itemCounts =
      some (2, 0, 2, some 100) := by
  refine ⟨fun st cov hmod hne => ?_, rfl⟩
  cases hr : cov.Reached
  · rw [stepCov_same st cov hne hmod st.reachedNum
      (uadd st.missedNum (usub cov.EndLine cov.StartLine))
      st.reachedRanges
      (st.missedRanges ++ [{ Start := cov.StartLine, End := cov.EndLine }])
      (by simp [foldSpan, hr])]
    simp [hr]
  · rw [stepCov_same st cov hne hmod
      (uadd st.reachedNum (usub cov.EndLine cov.StartLine)) st.missedNum
      (st.reachedRanges ++ [{ Start := cov.StartLine, End := cov.EndLine }])
      st.missedRanges
      (by simp [foldSpan, hr])]
    simp [hr]

/-- Closed witness for C1: folding the reached record `a:1.1,3.2 2 1`
into an in-group state adds span `3 - 1 = 2` to the reached accumulator
and appends the range 1–3. -/
theorem C1_witness :
    (stepCov { initAggState with lastModule := "a" }
        { Module := "a", StartLine := 1, StartColumn := 1,
          EndLine := 3, EndColumn := 2, Reached := true }).map
      (fun st => (st.reachedNum, st.missedNum, st.reachedRanges, st.missedRanges)) =
    some (2, 0, [{ Start := 1, End := 3 }], []) := by
  rw [C1_aggregator_adds_line_span.1 { initAggState with lastModule := "a" }
    { Module := "a", StartLine := 1, StartColumn := 1,
      EndLine := 3, EndColumn := 2, Reached := true } rfl (by decide)]
  rfl

/-- Item consistency from its finalized fields. -/
theorem ItemOK_of_fields (i : Item)
    (hS : i.Statement = uadd i.Reached i.Missed)
    (hP : i.Percentage = ceilPercent i.Reached i.Statement) : ItemOK i := by
  refine ⟨hS, fun h => ?_⟩
  rw [hP]
  unfold ceilPercent
  rw [if_neg h]

/-- The Go zero item is (vacuously) consistent. -/
theorem ItemOK_zero : ItemOK ({} : Item) := by
  refine ⟨by decide, fun h => absurd rfl h⟩

/-- Writing a consistent item preserves map consistency. -/
theorem MapOK_set (m : ItemMap) (k : String) (v : Item)
    (hm : MapOK m) (hv : ItemOK v) : MapOK (setItem m k v) := by
  intro M i hi
  rw [getItem_setItem] at hi
  by_cases h : M = k
  · rw [if_pos h] at hi
    injection hi with hh
    subst hh
    exact hv
  · rw [if_neg h] at hi
    exact hm M i hi

/-- Each loop iteration preserves map consistency. -/
theorem stepCov_MapOK (st : AggState) (cov : CoverageResult) (st' : AggState)
    (h : stepCov st cov = some st') (hm : MapOK st.items) : MapOK st'.items := by
  by_cases h1 : st.lastModule = ""
  · rcases hfs : foldSpan cov st.reachedNum st.reachedRanges st.missedNum st.missedRanges
      with ⟨rN, rR, mN, mR⟩
    rw [stepCov_first st cov h1 rN mN rR mR hfs] at h
    injection h with h
    subst h
    exact MapOK_set _ _ _ hm (ItemOK_of_fields _ rfl rfl)
  · by_cases h2 : st.lastModule = cov.Module
    · rcases hfs : foldSpan cov st.reachedNum st.reachedRanges st.missedNum st.missedRanges
        with ⟨rN, rR, mN, mR⟩
      rw [stepCov_same st cov h1 h2 rN mN rR mR hfs] at h
      injection h with h
      subst h
      exact hm
    · cases hg : getItem st.items st.lastModule with
      | none => rw [stepCov_boundary_none st cov h1 h2 hg] at h; exact absurd h (by simp)
      | some v =>
        rcases hfs : foldSpan cov 0 [] 0 [] with ⟨rN, rR, mN, mR⟩
        rw [stepCov_boundary st cov h1 h2 v hg rN mN rR mR hfs] at h
        injection h with h
        subst h
        exact MapOK_set _ _ _ (MapOK_set _ _ _ hm (ItemOK_of_fields _ rfl rfl)) ItemOK_zero

/-- The post-loop finalization preserves map consistency. -/
theorem finishAgg_MapOK (st : AggState) (st' : AggState)
    (h : finishAgg st = some st') (hm : MapOK st.items) : MapOK st'.items := by
  cases hg : getItem st.items st.lastModule with
  | none => rw [finishAgg_none st hg] at h; exact absurd h (by simp)
  | some v =>
    rcases hfs : foldSpan st.lastCov st.reachedNum st.reachedRanges st.missedNum st.missedRanges
      with ⟨rN, rR, mN, mR⟩
    rw [finishAgg_some st v hg rN mN rR mR hfs] at h
    injection h with h
    subst h
    exact MapOK_set _ _ _ hm (ItemOK_of_fields _ rfl rfl)

/-- The whole summarize pass preserves map consistency. -/
theorem runAgg_MapOK : ∀ (covs : List CoverageResult) (st st' : AggState),
    runAgg st covs = some st' → MapOK st.items → MapOK st'.items := by
  intro covs
  induction covs with
  | nil => exact fun st st' h hm => finishAgg_MapOK st st' h hm
  | cons c cs ih =>
    intro st st' h hm
    unfold runAgg at h
    cases hs : stepCov st c with
    | none => rw [hs] at h; exact absurd h (by simp)
    | some st1 => rw [hs] at h; exact ih st1 st' h (stepCov_MapOK st c st1 hs hm)

/-- C2 (amended).  For every finalized module, the statement total is the
(wrapped) sum of reached and missed, and when it is non-zero the stored
percentage is the ceiling `uint(math.Ceil(reached/statementTotal*100))`
— the source rounds up, not to nearest; a zero statement total makes the
source convert `math.Ceil(0.0/0.0) = NaN` to `uint`, which is
implementation-dependent (modeled as an unspecified percentage), not 0.
The global percentage applies the same ceiling to the pooled totals. -/
theorem C2_percentage_is_ceiling :
    (∀ (covs : List CoverageResult) (st : AggState), summarize covs = some st →
      ∀ (M : String) (i : Item), getItem st.items M = some i →
        i.Statement = uadd i.Reached i.Missed ∧
        (i.Statement ≠ 0 →
          i.Percentage = some ((i.Reached * 100 + i.Statement - 1) / i.Statement))) ∧
    (∀ st : AggState, (mkSummaryTotal st).Percentage =
      ceilPercent st.totalReachedNum st.totalStatementNum) := by
  refine ⟨fun covs st hsum M i hi => ?_, fun st => rfl⟩
  have hm : MapOK st.items :=
    runAgg_MapOK covs initAggState st hsum (fun M i hi => by simp [getItem] at hi)
  exact hm M i hi

/-- Closed witness for C2: on the records of `thirdProfile`, module `a`
finalizes with statement total `3 = 1 + 2` and percentage
`ceil(100/3) = 34`. -/
theorem C2_witness :
    ((summarize covsThird).bind fun st => getItem st.items "a").map itemCounts =
      some (1, 2, 3, some 34) ∧ (3 : Nat) = uadd 1 2 := by
  have h := C2_percentage_is_ceiling.1 covsThird _ rfl "a" _ rfl
  exact ⟨rfl, h.1⟩

/-- C2 counterexample.  A finalized module with reached = 1,
statementTotal = 3 gets percentage `uint(math.Ceil(100/3)) = 34`, while
the claimed rounding rule (`round`, nearest, ties away from zero) gives
33. -/
theorem C2_counterexample :
    (moduleItem (runMain thirdProfile) "a").map itemCounts =
      some (1, 2, 3, some 34) ∧
    roundTiesAway (1 * 100) 3 = 33 ∧
    (some (34 : Nat) : Option Nat) ≠ some 33 := by
  exact ⟨rfl, rfl, by decide⟩

/-- C3.  Evaluation of the failing input: on the spec's Example 1
profile the global reached total is 4 while the per-module reached values
sum to 2 — the first branch of the loop adds the first record's
contribution into the totals, and the post-loop code re-adds the last
record's span before adding the accumulators again, so the totals
double-count; the pooled global percentage becomes 200. -/
theorem C3_totals_not_sum_of_modules :
    (finalState (runMain exampleProfile)).map
        (fun st => ((mkSummaryTotal st).Reached, itemsReachedSum st.items,
                    (mkSummaryTotal st).Percentage)) =
      some (4, 2, some 200) ∧
    (4 : Nat) ≠ 2 := by
  exact ⟨rfl, by decide⟩

/-- C4.  A profile consisting of only the header line leaves the record
list empty; the post-loop finalization then writes through
`items[lastModule]` with `lastModule == ""` absent from the map, a nil
pointer dereference — a run-time panic, not an empty summary. -/
theorem C4_header_only_profile_faults :
    runMain ["mode: set"] = RunResult.aggPanic ∧ summarize [] = none := by
  exact ⟨rfl, rfl⟩

/-- C5 counterexample.  A record with a non-numeric position field makes
`strconv.Atoi` fail; `main` prints the diagnostic and returns normally,
so the process exit status is 0, not non-zero as claimed. -/
theorem C5_counterexample :
    runMain ["mode: set", "a:x.1,3.2 2 1"] = RunResult.parseDiagExit ∧
    exitStatus (runMain ["mode: set", "a:x.1,3.2 2 1"]) = some 0 ∧
    (some (0 : Nat) : Option Nat) ≠ some 2 := by
  exact ⟨rfl, rfl, by decide⟩

/-- The record loop aborts at the first failing line, with the failure
kind of that line, regardless of what follows it. -/
theorem parseRecords_append_error (pre post : List String) (bad : String)
    (e : ParseErr)
    (hpre : ∀ l ∈ pre, ∃ c, parseLine l = Except.ok c)
    (hbad : parseLine bad = Except.error e) :
    parseRecords (pre ++ bad :: post) = failResult e := by
  induction pre with
  | nil =>
    show parseRecords (bad :: post) = _
    unfold parseRecords
    rw [hbad]
    cases e <;> rfl
  | cons l ls ih =>
    obtain ⟨c, hc⟩ := hpre l (List.mem_cons_self l ls)
    show parseRecords (l :: (ls ++ bad :: post)) = _
    unfold parseRecords
    rw [hc, ih (fun x hx => hpre x (List.mem_cons_of_mem l hx))]
    cases e <;> rfl

/-- C5 (amended).  Parsing aborts at the first failing record line and no
report is produced; a line with missing separators or fewer than three
space-separated fields fails with an index-out-of-range run-time panic
(exit status 2), while a line with a non-numeric numeric field fails in
`strconv.Atoi`, which prints a diagnostic and returns normally from
`main` — exit status 0, not non-zero. -/
theorem C5_first_failure_aborts :
    ∀ (pre post : List String) (bad : String) (e : ParseErr),
      (∀ l ∈ pre, ∃ c, parseLine l = Except.ok c) →
      parseLine bad = Except.error e →
      parseRecords (pre ++ bad :: post) = failResult e ∧
      (∀ (hdr mode : String), (goSplit hdr "mode: ").get? 1 = some mode →
        runMain (hdr :: (pre ++ bad :: post)) = failRun e ∧
        exitStatus (runMain (hdr :: (pre ++ bad :: post))) = some (failExit e)) := by
  intro pre post bad e hpre hbad
  have hrec := parseRecords_append_error pre post bad e hpre hbad
  refine ⟨hrec, fun hdr mode hhdr => ?_⟩
  unfold runMain
  dsimp only [List.headD, List.tail]
  rw [hhdr, hrec]
  cases e <;> exact ⟨rfl, rfl⟩

/-- Closed witness for C5: a record with only two space-separated fields
panics (exit status 2) after one good record, ignoring later lines. -/
theorem C5_witness :
    parseRecords ["a:1.1,3.2 2 1", "a:1.1 2", "zzz"] = RecordsResult.panic ∧
    runMain ["mode: set", "a:1.1,3.2 2 1", "a:1.1 2", "zzz"] = RunResult.parsePanic ∧
    exitStatus (runMain ["mode: set", "a:1.1,3.2 2 1", "a:1.1 2", "zzz"]) = some 2 := by
  have h := C5_first_failure_aborts ["a:1.1,3.2 2 1"] ["zzz"] "a:1.1 2"
    ParseErr.indexPanic
    (fun l hl => by
      rw [List.mem_singleton] at hl
      subst hl
      exact ⟨_, rfl⟩)
    rfl
  exact ⟨h.1, (h.2 "mode: set" "set" rfl).1, (h.2 "mode: set" "set" rfl).2⟩

/-- A range list with no element is from-records vacuously. -/
theorem RangesFromRecords_nil (covs : List CoverageResult) (M : String) (flag : Bool) :
    RangesFromRecords covs M flag [] :=
  fun r hr => absurd hr (List.not_mem_nil r)

/-- From-records is monotone when one more record is appended. -/
theorem RangesFromRecords_mono (covs : List CoverageResult) (c : CoverageResult)
    (M : String) (flag : Bool) (rs : List CoverRange)
    (h : RangesFromRecords covs M flag rs) :
    RangesFromRecords (covs ++ [c]) M flag rs := by
  intro r hr
  obtain ⟨d, hd, h1, h2, h3⟩ := h r hr
  exact ⟨d, List.mem_append_left _ hd, h1, h2, h3⟩

/-- Concatenation of two from-records lists. -/
theorem RangesFromRecords_append (covs : List CoverageResult) (M : String)
    (flag : Bool) (rs1 rs2 : List CoverRange)
    (h1 : RangesFromRecords covs M flag rs1)
    (h2 : RangesFromRecords covs M flag rs2) :
    RangesFromRecords covs M flag (rs1 ++ rs2) := by
  intro r hr
  rcases List.mem_append.mp hr with h | h
  · exact h1 r h
  · exact h2 r h

/-- The span of a listed record is from-records. -/
theorem RangesFromRecords_singleton (covs : List CoverageResult) (M : String)
    (flag : Bool) (c : CoverageResult) (hc : c ∈ covs) (hM : c.Module = M)
    (hf : c.Reached = flag) :
    RangesFromRecords covs M flag [{ Start := c.StartLine, End := c.EndLine }] := by
  intro r hr
  rw [List.mem_singleton] at hr
  subst hr
  exact ⟨c, hc, hM, hf, rfl⟩

/-- When no record of `seen` has an empty module name, a from-records
list for module `""` is empty. -/
theorem RangesFromRecords_empty_module (seen : List CoverageResult) (flag : Bool)
    (rs : List CoverRange) (hseen : ∀ c ∈ seen, c.Module ≠ "")
    (h : RangesFromRecords seen "" flag rs) : rs = [] := by
  cases rs with
  | nil => rfl
  | cons r rest =>
    obtain ⟨c, hc, hM, _, _⟩ := h r (List.mem_cons_self r rest)
    exact absurd hM (hseen c hc)

/-- How `foldSpan` extends the two range lists: exactly one of them grows,
by the record's own span. -/
theorem foldSpan_ranges (c : CoverageResult) (rN mN : Nat)
    (rR mR : List CoverRange) (rN' mN' : Nat) (rR' mR' : List CoverRange)
    (h : foldSpan c rN rR mN mR = (rN', rR', mN', mR')) :
    (c.Reached = true ∧
      rR' = rR ++ [{ Start := c.StartLine, End := c.EndLine }] ∧ mR' = mR) ∨
    (c.Reached = false ∧ rR' = rR ∧
      mR' = mR ++ [{ Start := c.StartLine, End := c.EndLine }]) := by
  cases hr : c.Reached
  · right
    simp only [foldSpan, hr, Bool.false_eq_true, if_false, Prod.mk.injEq] at h
    exact ⟨rfl, h.2.1.symm, h.2.2.2.symm⟩
  · left
    simp only [foldSpan, hr, if_true, Prod.mk.injEq] at h
    exact ⟨rfl, h.2.1.symm, h.2.2.2.symm⟩

/-- One loop iteration preserves the range-origin invariant. -/
theorem stepCov_RangesInv (seen : List CoverageResult) (st : AggState)
    (cov : CoverageResult) (st' : AggState)
    (hseen : ∀ c ∈ seen, c.Module ≠ "") (hcov : cov.Module ≠ "")
    (hinv : RangesInv seen st) (h : stepCov st cov = some st') :
    RangesInv (seen ++ [cov]) st' := by
  obtain ⟨hItems, hRR, hMR, hLC, hEmp⟩ := hinv
  have hcovMem : cov ∈ seen ++ [cov] :=
    List.mem_append_right _ (List.mem_singleton.mpr rfl)
  by_cases h1 : st.lastModule = ""
  · -- first branch: the accumulators were necessarily empty
    rcases hfs : foldSpan cov st.reachedNum st.reachedRanges st.missedNum st.missedRanges
      with ⟨rN, rR, mN, mR⟩
    rw [stepCov_first st cov h1 rN mN rR mR hfs] at h
    injection h with h
    subst h
    rw [h1] at hRR hMR
    have hRRnil := RangesFromRecords_empty_module seen true _ hseen hRR
    have hMRnil := RangesFromRecords_empty_module seen false _ hseen hMR
    refine ⟨?_, ?_, ?_, ?_, ?_⟩
    · intro M i hi
      rw [getItem_setItem] at hi
      by_cases hM : M = cov.Module
      · rw [if_pos hM] at hi
        injection hi with hi
        subst hi
        exact ⟨RangesFromRecords_nil _ _ _, RangesFromRecords_nil _ _ _⟩
      · rw [if_neg hM, hEmp h1] at hi
        simp [getItem] at hi
    · rcases foldSpan_ranges cov _ _ _ _ _ _ _ _ hfs with ⟨hf, he, _⟩ | ⟨hf, he, _⟩
      · rw [show AggState.reachedRanges _ = rR from rfl, he, hRRnil, List.nil_append]
        exact RangesFromRecords_singleton _ _ _ cov hcovMem rfl hf
      · rw [show AggState.reachedRanges _ = rR from rfl, he, hRRnil]
        exact RangesFromRecords_nil _ _ _
    · rcases foldSpan_ranges cov _ _ _ _ _ _ _ _ hfs with ⟨hf, _, he⟩ | ⟨hf, _, he⟩
      · rw [show AggState.missedRanges _ = mR from rfl, he, hMRnil]
        exact RangesFromRecords_nil _ _ _
      · rw [show AggState.missedRanges _ = mR from rfl, he, hMRnil, List.nil_append]
        exact RangesFromRecords_singleton _ _ _ cov hcovMem rfl hf
    · exact fun _ => ⟨hcovMem, rfl⟩
    · exact fun hx => absurd hx hcov
  · by_cases h2 : st.lastModule = cov.Module
    · -- same-module branch
      rcases hfs : foldSpan cov st.reachedNum st.reachedRanges st.missedNum st.missedRanges
        with ⟨rN, rR, mN, mR⟩
      rw [stepCov_same st cov h1 h2 rN mN rR mR hfs] at h
      injection h with h
      subst h
      refine ⟨?_, ?_, ?_, ?_, ?_⟩
      · intro M i hi
        exact ⟨RangesFromRecords_mono _ _ _ _ _ (hItems M i hi).1,
               RangesFromRecords_mono _ _ _ _ _ (hItems M i hi).2⟩
      · rcases foldSpan_ranges cov _ _ _ _ _ _ _ _ hfs with ⟨hf, he, _⟩ | ⟨hf, he, _⟩
        · rw [show AggState.reachedRanges _ = rR from rfl, he]
          exact RangesFromRecords_append _ _ _ _ _
            (h2 ▸ RangesFromRecords_mono _ _ _ _ _ hRR)
            (RangesFromRecords_singleton _ _ _ cov hcovMem rfl hf)
        · rw [show AggState.reachedRanges _ = rR from rfl, he]
          exact h2 ▸ RangesFromRecords_mono _ _ _ _ _ hRR
      · rcases foldSpan_ranges cov _ _ _ _ _ _ _ _ hfs with ⟨hf, _, he⟩ | ⟨hf, _, he⟩
        · rw [show AggState.missedRanges _ = mR from rfl, he]
          exact h2 ▸ RangesFromRecords_mono _ _ _ _ _ hMR
        · rw [show AggState.missedRanges _ = mR from rfl, he]
          exact RangesFromRecords_append _ _ _ _ _
            (h2 ▸ RangesFromRecords_mono _ _ _ _ _ hMR)
            (RangesFromRecords_singleton _ _ _ cov hcovMem rfl hf)
      · exact fun _ => ⟨hcovMem, rfl⟩
      · exact fun hx => absurd hx hcov
    · -- boundary branch
      cases hg : getItem st.items st.lastModule with
      | none => rw [stepCov_boundary_none st cov h1 h2 hg] at h; exact absurd h (by simp)
      | some v =>
        rcases hfs : foldSpan cov 0 [] 0 [] with ⟨rN, rR, mN, mR⟩
        rw [stepCov_boundary st cov h1 h2 v hg rN mN rR mR hfs] at h
        injection h with h
        subst h
        refine ⟨?_, ?_, ?_, ?_, ?_⟩
        · intro M i hi
          rw [getItem_setItem] at hi
          by_cases hM : M = cov.Module
          · rw [if_pos hM] at hi
            injection hi with hi
            subst hi
            exact ⟨RangesFromRecords_nil _ _ _, RangesFromRecords_nil _ _ _⟩
          · rw [if_neg hM, getItem_setItem] at hi
            by_cases hL : M = st.lastModule
            · subst hL
              rw [if_pos rfl] at hi
              injection hi with hi
              subst hi
              exact ⟨RangesFromRecords_mono _ _ _ _ _ hRR,
                     RangesFromRecords_mono _ _ _ _ _ hMR⟩
            · rw [if_neg hL] at hi
              exact ⟨RangesFromRecords_mono _ _ _ _ _ (hItems M i hi).1,
                     RangesFromRecords_mono _ _ _ _ _ (hItems M i hi).2⟩
        · show RangesFromRecords (seen ++ [cov]) cov.Module true rR
          rcases foldSpan_ranges cov _ _ _ _ _ _ _ _ hfs with ⟨hf, he, _⟩ | ⟨hf, he, _⟩
          · rw [he, List.nil_append]
            exact RangesFromRecords_singleton _ _ _ cov hcovMem rfl hf
          · rw [he]
            exact RangesFromRecords_nil _ _ _
        · show RangesFromRecords (seen ++ [cov]) cov.Module false mR
          rcases foldSpan_ranges cov _ _ _ _ _ _ _ _ hfs with ⟨hf, _, he⟩ | ⟨hf, _, he⟩
          · rw [he]
            exact RangesFromRecords_nil _ _ _
          · rw [he, List.nil_append]
            exact RangesFromRecords_singleton _ _ _ cov hcovMem rfl hf
        · exact fun _ => ⟨hcovMem, rfl⟩
        · exact fun hx => absurd hx hcov

/-- The post-loop finalization attaches only ranges that come from the
processed records of the respective module. -/
theorem finishAgg_ranges (seen : List CoverageResult) (st st' : AggState)
    (hinv : RangesInv seen st) (h : finishAgg st = some st') :
    ∀ (M : String) (i : Item), getItem st'.items M = some i →
      RangesFromRecords seen M true i.ReachedRanges ∧
      RangesFromRecords seen M false i.MissedRanges := by
  obtain ⟨hItems, hRR, hMR, hLC, hEmp⟩ := hinv
  cases hg : getItem st.items st.lastModule with
  | none => rw [finishAgg_none st hg] at h; exact absurd h (by simp)
  | some v =>
    have hlm : st.lastModule ≠ "" := by
      intro he
      rw [hEmp he] at hg
      simp [getItem] at hg
    obtain ⟨hlcMem, hlcMod⟩ := hLC hlm
    rcases hfs : foldSpan st.lastCov st.reachedNum st.reachedRanges st.missedNum st.missedRanges
      with ⟨rN, rR, mN, mR⟩
    rw [finishAgg_some st v hg rN mN rR mR hfs] at h
    injection h with h
    subst h
    intro M i hi
    rw [getItem_setItem] at hi
    by_cases hM : M = st.lastModule
    · rw [if_pos hM] at hi
      injection hi with hi
      subst hi
      subst hM
      constructor
      · rcases foldSpan_ranges st.lastCov _ _ _ _ _ _ _ _ hfs with ⟨hf, he, _⟩ | ⟨hf, he, _⟩
        · rw [show Item.ReachedRanges _ = rR from rfl, he]
          exact RangesFromRecords_append _ _ _ _ _ hRR
            (RangesFromRecords_singleton _ _ _ st.lastCov hlcMem hlcMod hf)
        · rw [show Item.ReachedRanges _ = rR from rfl, he]
          exact hRR
      · rcases foldSpan_ranges st.lastCov _ _ _ _ _ _ _ _ hfs with ⟨hf, _, he⟩ | ⟨hf, _, he⟩
        · rw [show Item.MissedRanges _ = mR from rfl, he]
          exact hMR
        · rw [show Item.MissedRanges _ = mR from rfl, he]
          exact RangesFromRecords_append _ _ _ _ _ hMR
            (RangesFromRecords_singleton _ _ _ st.lastCov hlcMem hlcMod hf)
    · rw [if_neg hM] at hi
      exact hItems M i hi

/-- The whole summarize pass keeps every attached range tied to a record
of its module. -/
theorem runAgg_ranges : ∀ (covs seen : List CoverageResult) (st st' : AggState),
    (∀ c ∈ seen, c.Module ≠ "") → (∀ c ∈ covs, c.Module ≠ "") →
    RangesInv seen st → runAgg st covs = some st' →
    ∀ (M : String) (i : Item), getItem st'.items M = some i →
      RangesFromRecords (seen ++ covs) M true i.ReachedRanges ∧
      RangesFromRecords (seen ++ covs) M false i.MissedRanges := by
  intro covs
  induction covs with
  | nil =>
    intro seen st st' _ _ hinv h M i hi
    rw [List.append_nil]
    exact finishAgg_ranges seen st st' hinv h M i hi
  | cons c cs ih =>
    intro seen st st' hseen hcovs hinv h M i hi
    unfold runAgg at h
    cases hs : stepCov st c with
    | none => rw [hs] at h; exact absurd h (by simp)
    | some st1 =>
      rw [hs] at h
      have hc : c.Module ≠ "" := hcovs c (List.mem_cons_self c cs)
      have hseen' : ∀ d ∈ seen ++ [c], d.Module ≠ "" := by
        intro d hd
        rcases List.mem_append.mp hd with hx | hx
        · exact hseen d hx
        · rw [List.mem_singleton] at hx
          subst hx
          exact hc
      have hinv1 := stepCov_RangesInv seen st c st1 hseen hc hinv hs
      have hres := ih (seen ++ [c]) st1 st' hseen'
        (fun d hd => hcovs d (List.mem_cons_of_mem c hd)) hinv1 h M i hi
      rw [List.append_assoc] at hres
      exact hres

/-- Boolean membership test unpacked: `IsReached` holds exactly when some
listed reached range contains the line. -/
theorem isReached_iff (i : Item) (n : Nat) :
    i.IsReached n = true ↔ ∃ r ∈ i.ReachedRanges, r.Start ≤ n ∧ n ≤ r.End := by
  unfold Item.IsReached
  simp [List.any_eq_true]

/-- Boolean membership test unpacked for `IsMissed`. -/
theorem isMissed_iff (i : Item) (n : Nat) :
    i.IsMissed n = true ↔ ∃ r ∈ i.MissedRanges, r.Start ≤ n ∧ n ≤ r.End := by
  unfold Item.IsMissed
  simp [List.any_eq_true]

/-- Line-disjoint record spans make the two membership predicates
mutually exclusive. -/
theorem no_overlap_of_disjoint (covs : List CoverageResult) (M : String)
    (i : Item)
    (hR : RangesFromRecords covs M true i.ReachedRanges)
    (hM : RangesFromRecords covs M false i.MissedRanges)
    (hdisj : SpanDisjoint covs M) (n : Nat) :
    ¬(i.IsReached n = true ∧ i.IsMissed n = true) := by
  rintro ⟨h1, h2⟩
  obtain ⟨r, hr, hr1, hr2⟩ := (isReached_iff i n).mp h1
  obtain ⟨q, hq, hq1, hq2⟩ := (isMissed_iff i n).mp h2
  obtain ⟨c, hc, hcM, hcR, hceq⟩ := hR r hr
  obtain ⟨c', hc', hcM', hcR', hceq'⟩ := hM q hq
  subst hceq
  subst hceq'
  simp only at hr1 hr2 hq1 hq2
  rcases hdisj c hc c' hc' hcM hcM' hcR hcR' with hlt | hlt <;> omega

/-- C6 (amended).  Every range attached to a finalized module is the line
span of one of that module's input records with the matching flag (the
aggregator never puts one record's span in both lists); hence a line can
satisfy both `IsReached` and `IsMissed` only when a reached record's span
overlaps a missed record's span, and when the module's reached and missed
record spans are pairwise line-disjoint (module names being non-empty),
no line satisfies both predicates. -/
theorem C6_ranges_from_records :
    ∀ (covs : List CoverageResult) (st : AggState),
      summarize covs = some st →
      (∀ c ∈ covs, c.Module ≠ "") →
      ∀ (M : String) (i : Item), getItem st.items M = some i →
        (RangesFromRecords covs M true i.ReachedRanges ∧
         RangesFromRecords covs M false i.MissedRanges) ∧
        (SpanDisjoint covs M → ∀ n : Nat,
          ¬(i.IsReached n = true ∧ i.IsMissed n = true)) := by
  intro covs st hsum hmod M i hi
  have hinit : RangesInv [] initAggState := by
    refine ⟨?_, ?_, ?_, ?_, ?_⟩
    · intro M i hi
      simp [initAggState, getItem] at hi
    · exact RangesFromRecords_nil _ _ _
    · exact RangesFromRecords_nil _ _ _
    · exact fun hx => absurd rfl hx
    · exact fun _ => rfl
  have h := runAgg_ranges covs [] initAggState st (by simp) hmod hinit hsum M i hi
  rw [List.nil_append] at h
  exact ⟨h, fun hd n => no_overlap_of_disjoint covs M i h.1 h.2 hd n⟩

/-- Closed witness for C6: a profile with disjoint reached (1–2) and
missed (3–4) spans classifies line 1 as reached only. -/
theorem C6_witness :
    ((summarize covsDisjoint).bind fun st => getItem st.items "a").map
      (fun i => (i.IsReached 1, i.IsMissed 1)) = some (true, false) := by
  have h := C6_ranges_from_records covsDisjoint _ rfl (by decide) "a" _ rfl
  have h2 := h.2 (by unfold SpanDisjoint; decide) 1
  exact rfl

/-- C6 counterexample.  With a reached record spanning lines 1–5 and a
missed record spanning lines 2–3 of the same module, line 2 of the
finalized module satisfies both `IsReached` and `IsMissed`: the
aggregator never compares spans across records, so overlapping spans of
opposite flags land in both lists. -/
theorem C6_counterexample :
    (moduleItem (runMain overlapProfile) "a").map
        (fun i => (i.IsReached 2, i.IsMissed 2)) = some (true, true) := by
  exact rfl

/-- C7 counterexample.  The escape collapses `.` and `/` to the same
character, so the distinct module identifiers `a.b` and `a/b` produce the
same output filename `a_b.html`. -/
theorem C7_counterexample :
    outputLink "a.b" = outputLink "a/b" ∧ "a.b" ≠ "a/b" := by
  exact ⟨rfl, by decide⟩

/-- Mapping a function that fixes every element of a list is the
identity. -/
theorem map_fixes (l : List Char) (f : Char → Char) (h : ∀ a ∈ l, f a = a) :
    l.map f = l := by
  induction l with
  | nil => rfl
  | cons a as ih =>
    simp only [List.map]
    rw [h a (List.mem_cons_self a as), ih (fun x hx => h x (List.mem_cons_of_mem a hx))]

/-- Go's `strings.ReplaceAll` leaves a string without the old character
unchanged. -/
theorem replaceAllChar_id (s : String) (old new : Char)
    (h : ∀ c ∈ s.toList, c ≠ old) : replaceAllChar s old new = s := by
  unfold replaceAllChar
  rw [map_fixes s.toList _ (fun c hc => if_neg (h c hc))]
  cases s
  rfl

/-- C7 (amended).  The escape is not injective in general — `a.b` and
`a/b` collide — but module identifiers containing neither `.` nor `/`
are left unchanged by the escape, so on those the output filename map is
injective. -/
theorem C7_injective_without_separators :
    ∀ s t : String,
      (∀ c ∈ s.toList, c ≠ '.' ∧ c ≠ '/') →
      (∀ c ∈ t.toList, c ≠ '.' ∧ c ≠ '/') →
      s ≠ t → outputLink s ≠ outputLink t := by
  intro s t hs ht hne heq
  apply hne
  have hfs : flattenFilename s = s := by
    unfold flattenFilename
    rw [replaceAllChar_id s '.' '_' (fun c hc => (hs c hc).1)]
    exact replaceAllChar_id s '/' '_' (fun c hc => (hs c hc).2)
  have hft : flattenFilename t = t := by
    unfold flattenFilename
    rw [replaceAllChar_id t '.' '_' (fun c hc => (ht c hc).1)]
    exact replaceAllChar_id t '/' '_' (fun c hc => (ht c hc).2)
  unfold outputLink at heq
  rw [hfs, hft] at heq
  have hdata : s.data ++ ".html".data = t.data ++ ".html".data :=
    congrArg String.data heq
  have : s.data = t.data := List.append_cancel_right hdata
  cases s
  cases t
  exact congrArg String.mk this

/-- Closed witness for C7: two separator-free identifiers keep distinct
filenames. -/
theorem C7_witness : outputLink "ab" ≠ outputLink "cd" := by
  exact C7_injective_without_separators "ab" "cd" (by decide) (by decide) (by decide)

/-- C9.  The parser performs no range validation: a negative position
field is accepted by `strconv.Atoi` and the `uint` conversion wraps it
modulo `2 ^ 64` into a value of at least `2 ^ 63`; concretely,
`a:-1.1,3.2 2 1` parses with start line `2 ^ 64 - 1`, and a record whose
end line 3 precedes its start line 5 is aggregated with the wrapped
unsigned span `3 - 5 = 2 ^ 64 - 2` as the module's reached count. -/
theorem C9_no_range_validation :
    (∀ i : Int, -(2 ^ 63) ≤ i → i < 0 →
      ((uintOfInt i : Int) = i + 2 ^ 64 ∧ 2 ^ 63 ≤ uintOfInt i)) ∧
    parseLine "a:-1.1,3.2 2 1" =
      Except.ok { Module := "a", StartLine := 2 ^ 64 - 1, StartColumn := 1,
                  EndLine := 3, EndColumn := 2, Reached := true } ∧
    usub 3 5 = 2 ^ 64 - 2 ∧
    (moduleItem (runMain ["mode: set", "a:5.1,3.2 2 1"]) "a").map Item.Reached =
      some (2 ^ 64 - 2) := by
  refine ⟨fun i h1 h2 => ?_, rfl, by decide, rfl⟩
  simp only [uintOfInt, U64]
  omega

/-- Closed witness for C9: the negative value `-5` wraps to
`2 ^ 64 - 5 ≥ 2 ^ 63`. -/
theorem C9_witness :
    (uintOfInt (-5) : Int) = -5 + 2 ^ 64 ∧ 2 ^ 63 ≤ uintOfInt (-5) := by
  exact C9_no_range_validation.1 (-5) (by decide) (by decide)

/-- The integer floor of a quotient of natural numbers is their natural
floor division. -/
theorem floor_natCast_div (a b : ℕ) (hb : 0 < b) :
    ⌊(a : ℚ) / (b : ℚ)⌋ = ((a / b : ℕ) : ℤ) := by
  rw [Int.floor_eq_iff]
  have hb' : (0 : ℚ) < (b : ℚ) := by exact_mod_cast hb
  have h1 : a / b * b ≤ a := Nat.div_mul_le_self a b
  have h2 : a < (a / b + 1) * b := by
    have := Nat.div_add_mod a b
    have := Nat.mod_lt a hb
    nlinarith
  constructor
  · rw [le_div_iff₀ hb']
    exact_mod_cast Nat.cast_le.mpr h1
  · rw [div_lt_iff₀ hb']
    calc (a : ℚ) < ((a / b + 1) * b : ℕ) := by exact_mod_cast Nat.cast_lt.mpr h2
      _ = (((a / b : ℕ) : ℚ) + 1) * b := by push_cast; ring

/-- C10.  At `precision ≤ 0`, `getPercentageValue` returns "0" for a zero
denominator (the ratio is taken as `0.0` instead of dividing), and for a
positive denominator it returns `numerator/denominator*100` rounded to
the nearest integer (ties away from zero, via `math.Round`), formatted
with no decimal places. -/
theorem C10_zero_denominator_and_rounding :
    ∀ (num den : Nat) (p : Int), p ≤ 0 →
      (den = 0 → getPercentageValue num den p = "0") ∧
      (0 < den → getPercentageValue num den p =
        toString (roundTiesAway (num * 100) den)) := by
  intro num den p hp
  constructor
  · intro hden
    subst hden
    simp only [getPercentageValue, if_pos rfl, if_pos hp, sprintfF0, mathRound]
    norm_num
    rfl
  · intro hden
    have hden0 : den ≠ 0 := Nat.pos_iff_ne_zero.mp hden
    simp only [getPercentageValue, if_neg hden0, if_pos hp, sprintfF0, mathRound]
    have hv : ¬ ((num : ℚ) / (den : ℚ) * 100 < 0) := by
      exact not_lt.mpr (by positivity)
    rw [if_neg hv]
    have hdq : (den : ℚ) ≠ 0 := Nat.cast_ne_zero.mpr hden0
    have key : (num : ℚ) / (den : ℚ) * 100 + 1 / 2
        = ((2 * (num * 100) + den : ℕ) : ℚ) / ((2 * den : ℕ) : ℚ) := by
      field_simp
      ring
    rw [key, floor_natCast_div _ _ (by positivity)]
    rfl

/-- Closed witness for C10: `1/3` of the statements reached formats as
"33" (nearest), and a zero denominator formats as "0". -/
theorem C10_witness :
    getPercentageValue 1 3 0 = "33" ∧ getPercentageValue 7 0 (-2) = "0" := by
  constructor
  · have h := (C10_zero_denominator_and_rounding 1 3 0 (by decide)).2 (by decide)
    rw [h]
    rfl
  · exact (C10_zero_denominator_and_rounding 7 0 (-2) (by decide)).1 rfl

end GoCover

